import Mathlib

/-!
Verification of the Understat scraper core (`src/Scrapping/Understat/Understat.py`)
against its natural-language specification.

The Python code is shallowly embedded:
  * decoded JSON values are the inductive `Json`;
  * Python dicts (which preserve insertion order) are association lists
    `List (String × Json)` with `dictSet` modelling `d[k] = v`
    (replace in place if the key exists, else append at the end);
  * pandas DataFrames are column-oriented tables `DataFrame` with an explicit
    row count (`nrows`), since every pandas operation used by the code is
    column-wise; missing cells (pandas `NaN`) are modelled as `Json.null`;
  * fallible Python operations (`str.index`, `json.loads`, `dict[k]`,
    `df[col]`, `astype(int)`) are `Option`/`Except` valued;
  * the stdlib collaborators `json.loads` and `.decode('unicode_escape')`
    are parameters (`parse`, `unesc`) of the extractor embedding: the claims
    under verification do not depend on their implementations;
  * in-place mutation of an argument is made explicit by returning the
    argument's post-call state alongside the function's result.
-/

/-- A decoded JSON value.  Numeric literals are restricted to integers; no
arithmetic is ever performed on payload numbers by the code under study, and
the only numeric interpretation it performs (`astype(int)` on the shot minute
column) is integral. -/
inductive Json where
  | str (s : String)
  | num (n : Int)
  | bool (b : Bool)
  | null
  | arr (elems : List Json)
  | obj (fields : List (String × Json))

/-- A Python dict decoded from JSON: an insertion-ordered association list. -/
abbrev Row : Type := List (String × Json)

/-- First value bound to key `k`, i.e. Python `d[k]` when it succeeds. -/
def rowLookup {β : Type} (r : List (String × β)) (k : String) : Option β :=
  match r with
  | [] => none
  | kv :: rest => if kv.1 = k then some kv.2 else rowLookup rest k

/-- Python `d[k] = v` on an insertion-ordered dict: replace the value in
place when `k` is present, append `(k, v)` otherwise. -/
def dictSet {β : Type} (r : List (String × β)) (k : String) (v : β) :
    List (String × β) :=
  match r with
  | [] => [(k, v)]
  | kv :: rest => if kv.1 = k then (k, v) :: rest else kv :: dictSet rest k v

/-- Python `d.pop(k)`'s effect on the dict (the first binding of `k` is
removed; decoded JSON dicts bind each key once). -/
def rowPop {β : Type} (r : List (String × β)) (k : String) : List (String × β) :=
  match r with
  | [] => []
  | kv :: rest => if kv.1 = k then rest else kv :: rowPop rest k

/-- The keys of a dict, in insertion order. -/
def rowKeys {β : Type} (r : List (String × β)) : List String := r.map Prod.fst

/-! ### The embedded-blob extractor `_get_json_data`

```python
str_start = data.index("('") + 2
str_end = data.index("')")
json_data = data[str_start:str_end]
json_data = json_data.encode('utf-8').decode('unicode_escape')
json_data = json.loads(json_data)
```

Raw text is a `List Char`.  `str.index(sub)` is `strIndexOf` (first index at
which `sub` starts, `none` when Python would raise `ValueError`).  Note that
the second `index` call has no start argument: it scans the whole string. -/

/-- Does `needle` occur starting at position `i` of `hay`? -/
def isSubAt (needle hay : List Char) (i : Nat) : Bool :=
  needle.isPrefixOf (hay.drop i)

/-- Python `hay.index(needle)`: the least index at which `needle` occurs,
`none` when there is none (Python raises `ValueError`). -/
def strIndexOf (hay needle : List Char) : Option Nat :=
  if needle.isPrefixOf hay then some 0
  else
    match hay with
    | [] => none
    | _ :: t => (strIndexOf t needle).map Nat.succ

/-- Python slice `s[a:b]` for `0 ≤ a, b` (empty when `b ≤ a`). -/
def pySlice2 (s : List Char) (a b : Nat) : List Char :=
  (s.take b).drop a

def quoteChar : Char := Char.ofNat 39

def lparChar : Char := Char.ofNat 40

def rparChar : Char := Char.ofNat 41

/-- The opening delimiter substring: a left parenthesis then a single quote. -/
def openDelim : List Char := [lparChar, quoteChar]

/-- The closing delimiter substring: a single quote then a right parenthesis. -/
def closeDelim : List Char := [quoteChar, rparChar]

/-- Error taxonomy of the extractor: `notFound` for a missing delimiter
(Python: `ValueError` from `str.index`), `parseErr` for text that fails to
decode/parse (Python: the error raised by `json.loads`). -/
inductive UErr where
  | notFound
  | parseErr
deriving DecidableEq, Repr

/-- The substring extraction performed by `_get_json_data`:
`data[data.index("('") + 2 : data.index("')")]`.  Faithful to the source,
the closing delimiter is looked up in the *whole* string, not after the
opening delimiter. -/
def getJsonString (data : List Char) : Option (List Char) := do
  let i ← strIndexOf data openDelim
  let j ← strIndexOf data closeDelim
  pure (pySlice2 data (i + 2) j)

/-- `_get_json_data`, parameterized by the stdlib collaborators:
`unesc` models `.encode('utf-8').decode('unicode_escape')` and
`parse` models `json.loads` (returning `none` on invalid JSON). -/
def getJsonData {J : Type} (parse : List Char → Option J)
    (unesc : List Char → List Char) (data : List Char) : Except UErr J :=
  match strIndexOf data openDelim with
  | none => .error .notFound
  | some i =>
    match strIndexOf data closeDelim with
    | none => .error .notFound
    | some j =>
      match parse (unesc (pySlice2 data (i + 2) j)) with
      | none => .error .parseErr
      | some v => .ok v

/-- Does `needle` occur anywhere in `hay`? -/
def containsSub (hay needle : List Char) : Bool :=
  (strIndexOf hay needle).isSome

/-! #### First-occurrence lemmas for `strIndexOf` -/

theorem strIndexOf_eq_some_of (hay needle : List Char) (k : Nat)
    (hk : isSubAt needle hay k = true)
    (hmin : ∀ i, i < k → isSubAt needle hay i = false) :
    strIndexOf hay needle = some k := by
  induction hay generalizing k with
  | nil =>
    cases k with
    | zero =>
      simp only [isSubAt, List.drop_nil] at hk
      simp [strIndexOf, hk]
    | succ n =>
      exfalso
      have h0 := hmin 0 (Nat.succ_pos n)
      simp only [isSubAt, List.drop_nil] at hk h0
      rw [hk] at h0
      exact Bool.noConfusion h0
  | cons c t ih =>
    cases k with
    | zero =>
      simp only [isSubAt, List.drop_zero] at hk
      simp [strIndexOf, hk]
    | succ n =>
      have hnp : needle.isPrefixOf (c :: t) = false := by
        have h0 := hmin 0 (Nat.succ_pos n)
        simpa [isSubAt] using h0
      have hrec : strIndexOf t needle = some n := by
        apply ih
        · simpa [isSubAt] using hk
        · intro i hi
          have := hmin (i + 1) (Nat.succ_lt_succ hi)
          simpa [isSubAt] using this
      simp [strIndexOf, hnp, hrec]

theorem isSubAt_append_self (pre rest needle : List Char) :
    isSubAt needle (pre ++ (needle ++ rest)) pre.length = true := by
  simp [isSubAt, List.drop_append_of_le_length, List.drop_length,
    List.isPrefixOf_iff_prefix, List.prefix_append]

theorem strIndexOf_boundary (pre rest needle : List Char)
    (hmin : ∀ i, i < pre.length →
      isSubAt needle (pre ++ (needle ++ rest)) i = false) :
    strIndexOf (pre ++ (needle ++ rest)) needle = some pre.length :=
  strIndexOf_eq_some_of _ _ _ (isSubAt_append_self pre rest needle) hmin

/-- A raw blob in the delimiter pattern of the spec:
`<pre>('<json>')<post>`. -/
def rawBlob (pre j post : List Char) : List Char :=
  pre ++ openDelim ++ j ++ closeDelim ++ post

theorem rawBlob_assoc_open (pre j post : List Char) :
    rawBlob pre j post = pre ++ (openDelim ++ (j ++ (closeDelim ++ post))) := by
  simp [rawBlob]

theorem rawBlob_assoc_close (pre j post : List Char) :
    rawBlob pre j post = (pre ++ openDelim ++ j) ++ (closeDelim ++ post) := by
  simp [rawBlob]

theorem strIndexOf_rawBlob_open (pre j post : List Char)
    (hopen : ∀ i, i < pre.length → isSubAt openDelim (rawBlob pre j post) i = false) :
    strIndexOf (rawBlob pre j post) openDelim = some pre.length := by
  rw [rawBlob_assoc_open]
  apply strIndexOf_boundary
  intro i hi
  have := hopen i hi
  rwa [rawBlob_assoc_open] at this

theorem strIndexOf_rawBlob_close (pre j post : List Char)
    (hclose : ∀ i, i < pre.length + 2 + j.length →
      isSubAt closeDelim (rawBlob pre j post) i = false) :
    strIndexOf (rawBlob pre j post) closeDelim =
      some (pre.length + 2 + j.length) := by
  have hlen : (pre ++ openDelim ++ j).length = pre.length + 2 + j.length := by
    simp only [List.length_append, openDelim, List.length_cons, List.length_nil]
  rw [rawBlob_assoc_close]
  have := strIndexOf_boundary (pre ++ openDelim ++ j) post closeDelim ?_
  · rwa [hlen] at this
  · intro i hi
    rw [hlen] at hi
    have := hclose i hi
    rwa [rawBlob_assoc_close] at this

theorem pySlice2_rawBlob (pre j post : List Char) :
    pySlice2 (rawBlob pre j post) (pre.length + 2) (pre.length + 2 + j.length) = j := by
  have hlen : (pre ++ openDelim ++ j).length = pre.length + 2 + j.length := by
    simp only [List.length_append, openDelim, List.length_cons, List.length_nil]
  have htake : (rawBlob pre j post).take (pre.length + 2 + j.length)
      = pre ++ openDelim ++ j := by
    rw [rawBlob_assoc_close]
    exact List.take_left' hlen
  have hlen2 : (pre ++ openDelim).length = pre.length + 2 := by
    simp [openDelim]
  have hdrop : (pre ++ openDelim ++ j).drop (pre.length + 2) = j :=
    List.drop_left' hlen2
  rw [pySlice2, htake, hdrop]

/-- C1 (amended).  For a raw blob `<pre>('<json>')<post>` in which the shown
open delimiter is the first occurrence of `('` and the shown close delimiter
is the first occurrence of `')` *in the whole string*, `_get_json_data`
extracts exactly `<json>` and returns the result of unescaping and parsing
it.  (The claim's original side condition — only that `<json>` itself does
not contain `')` — is not enough, because the source locates the closing
delimiter with `data.index("')")`, scanning from the start of the string,
not from the opening delimiter.) -/
theorem getJsonData_extracts_first_delimited {J : Type}
    (parse : List Char → Option J) (unesc : List Char → List Char)
    (pre j post : List Char) (v : J)
    (hopen : ∀ i, i < pre.length → isSubAt openDelim (rawBlob pre j post) i = false)
    (hclose : ∀ i, i < pre.length + 2 + j.length →
      isSubAt closeDelim (rawBlob pre j post) i = false)
    (hparse : parse (unesc j) = some v) :
    getJsonData parse unesc (rawBlob pre j post) = .ok v := by
  rw [getJsonData, strIndexOf_rawBlob_open pre j post hopen,
    strIndexOf_rawBlob_close pre j post hclose]
  simp only [pySlice2_rawBlob, hparse]

/-- Witness for C1's amended theorem on the concrete blob `var ('1');`. -/
theorem getJsonData_extracts_witness :
    getJsonData (fun s => if s = [Char.ofNat 49] then some (1 : Int) else none)
      (fun s => s)
      (rawBlob [Char.ofNat 118, Char.ofNat 97, Char.ofNat 114, Char.ofNat 32]
        [Char.ofNat 49] [Char.ofNat 59]) = .ok 1 :=
  getJsonData_extracts_first_delimited
    (fun s => if s = [Char.ofNat 49] then some (1 : Int) else none)
    (fun s => s)
    [Char.ofNat 118, Char.ofNat 97, Char.ofNat 114, Char.ofNat 32]
    [Char.ofNat 49] [Char.ofNat 59] 1
    (by decide) (by decide) (by decide)

/-- A toy `json.loads` for concrete instantiations: the only valid document
is the single character `1`, which denotes the integer one. -/
def toyParse (s : List Char) : Option Int :=
  if s = [Char.ofNat 49] then some 1 else none

/-- The raw blob `x')y('1')`: it contains the delimiter pattern `('1')`
(whose embedded JSON document `1` does not contain `')`), but a stray `')`
occurs *before* the opening delimiter. -/
def exC1Blob : List Char :=
  [Char.ofNat 120, quoteChar, rparChar, Char.ofNat 121, lparChar, quoteChar,
   Char.ofNat 49, quoteChar, rparChar]

/-- C1 (counterexample).  On the blob `x')y('1')` the claim predicts the
extractor returns the parse of `1` (i.e. `.ok 1`): the blob contains the
delimiter pattern `('1')` and the embedded document contains no `')`.  The
source instead computes `str_end = data.index("')") = 1` — the first `')` of
the *whole string*, before the opening delimiter — so it slices out the empty
string and fails with a parse error. -/
theorem getJsonData_first_close_counterexample :
    toyParse [Char.ofNat 49] = some 1 ∧
    containsSub [Char.ofNat 49] closeDelim = false ∧
    getJsonData toyParse (fun s => s) exC1Blob = .error .parseErr := by
  exact ⟨rfl, by decide, rfl⟩

/-- C8 (confirmed).  The extractor fails with the `NotFoundError` condition
exactly when one of the delimiters `('`, `')` is absent from the input;
it fails with the `ParseError` condition exactly when both are present but
the extracted substring does not decode-and-parse; it succeeds otherwise. -/
theorem getJsonData_error_classification {J : Type}
    (parse : List Char → Option J) (unesc : List Char → List Char)
    (data : List Char) :
    (getJsonData parse unesc data = .error .notFound ↔
      containsSub data openDelim = false ∨ containsSub data closeDelim = false) ∧
    (getJsonData parse unesc data = .error .parseErr ↔
      ∃ s, getJsonString data = some s ∧ parse (unesc s) = none) ∧
    ((∃ v, getJsonData parse unesc data = .ok v) ↔
      ∃ s v, getJsonString data = some s ∧ parse (unesc s) = some v) := by
  cases h1 : strIndexOf data openDelim with
  | none => simp [getJsonData, getJsonString, containsSub, h1]
  | some i =>
    cases h2 : strIndexOf data closeDelim with
    | none => simp [getJsonData, getJsonString, containsSub, h1, h2]
    | some j =>
      cases h3 : parse (unesc (pySlice2 data (i + 2) j)) with
      | none => simp [getJsonData, getJsonString, containsSub, h1, h2, h3]
      | some v => simp [getJsonData, getJsonString, containsSub, h1, h2, h3]

/-! ### URL construction `_get_scrape_url` (C9)

```python
scrape_url = match
if isinstance(match, int):
    match_id = f"{match}"
    scrape_url = f"{base_url}{match_id}"
elif not isinstance(match, str):
    raise ValueError(...)
return scrape_url
```
-/

/-- The runtime type of the Python value passed as the `match` argument:
an `int`, a `str`, or a value of any other type. -/
inductive PyVal where
  | pint (n : Int)
  | pstr (s : String)
  | pother
deriving DecidableEq, Repr

/-- The `ValueError` message raised by `_get_scrape_url`. -/
def invalidArgMsg : String :=
  "O argumento match precisa ser um int (match_id) ou uma string (url da partida)"

/-- `_get_scrape_url`: an integer id is appended (in decimal) to the base
URL; a string is returned unchanged; anything else raises `ValueError`. -/
def getScrapeUrl (m : PyVal) (baseUrl : String) : Except String String :=
  match m with
  | .pint n => .ok (baseUrl ++ toString n)
  | .pstr s => .ok s
  | .pother => .error invalidArgMsg

/-- C9 (confirmed).  `_get_scrape_url` maps an integer identifier to the
base URL followed by its decimal representation, returns a string argument
unchanged, and fails with the `InvalidArgument` condition (`ValueError`) on
any argument that is neither an `int` nor a `str`. -/
theorem getScrapeUrl_cases (n : Int) (s : String) (baseUrl : String) :
    getScrapeUrl (.pint n) baseUrl = .ok (baseUrl ++ toString n) ∧
    getScrapeUrl (.pstr s) baseUrl = .ok s ∧
    getScrapeUrl .pother baseUrl = .error invalidArgMsg :=
  ⟨rfl, rfl, rfl⟩

/-! ### Batch orchestrators (C2)

`_scrape_matches` (and `_scrape_teams`, identical in structure):

```python
matches = dict()
if end == -1:
    match_links = match_links[init:]
else:
    match_links = match_links[init:end]
for match_link in tqdm(match_links, ...):
    try:
        matches[match_link] = self.scrape_match(match_link)
    except Exception as e:
        print(f"Error scraping match {match_link}: {e}")
return matches
```

`scrape_players_from_league` (no `try`/`except` around the per-item fetch):

```python
players = dict()
if end == -1:
    players_data = players_data[init:]
else:
    players_data = players_data[init:end]
for player_id in tqdm(players_data['id'], ...):
    player_stats = self.scrape_player(player_id)
    player_name = players_data[players_data['id'] == player_id]['player_name'].values[0]
    players[player_name] = player_stats
return players
```

The single-entity fetch (network I/O plus parsing) is a parameter `fetch`
returning `Except` (a raised exception is `.error msg`). -/

/-- Python slice `xs[i:e]` for `0 ≤ i` and arbitrary integer `e`
(a negative stop counts from the end; out-of-range bounds are clamped). -/
def pySliceIE {α : Type} (xs : List α) (i : Nat) (e : Int) : List α :=
  let stop : Nat := if e < 0 then ((xs.length : Int) + e).toNat
    else min e.toNat xs.length
  (xs.take stop).drop i

/-- The slicing prelude shared by the batch orchestrators:
`xs[init:]` when `end == -1`, otherwise `xs[init:end]`. -/
def sliceInitEnd {α : Type} (xs : List α) (i : Nat) (e : Int) : List α :=
  if e = -1 then xs.drop i else pySliceIE xs i e

/-- The diagnostic `_scrape_matches` prints for a failing link. -/
def matchDiag (link msg : String) : String :=
  "Error scraping match " ++ link ++ ": " ++ msg

/-- `_scrape_matches`: slice the links, fetch each in order, store successes
in the insertion-ordered `matches` dict, print-and-skip failures.  The second
component collects the printed diagnostics. -/
def scrapeMatches {α : Type} (fetch : String → Except String α)
    (matchLinks : List String) (init : Nat) (e : Int) :
    List (String × α) × List String :=
  (sliceInitEnd matchLinks init e).foldl
    (fun acc link =>
      match fetch link with
      | .ok v => (dictSet acc.1 link v, acc.2)
      | .error msg => (acc.1, acc.2 ++ [matchDiag link msg]))
    ([], [])

/-- The successful entries of a batch, in traversal order. -/
def scrapeSuccesses {α : Type} (fetch : String → Except String α)
    (ls : List String) : List (String × α) :=
  ls.filterMap (fun l =>
    match fetch l with
    | .ok v => some (l, v)
    | .error _ => none)

/-- The diagnostics of a batch, in traversal order. -/
def scrapeDiags {α : Type} (fetch : String → Except String α)
    (ls : List String) : List String :=
  ls.filterMap (fun l =>
    match fetch l with
    | .ok _ => none
    | .error msg => some (matchDiag l msg))

theorem dictSet_append_of_not_mem {β : Type} (m : List (String × β))
    (k : String) (v : β) (hk : k ∉ m.map Prod.fst) :
    dictSet m k v = m ++ [(k, v)] := by
  induction m with
  | nil => rfl
  | cons kv rest ih =>
    simp only [List.map_cons, List.mem_cons] at hk
    push_neg at hk
    rw [dictSet, if_neg (fun h => hk.1 h.symm), ih hk.2]
    rfl

theorem scrapeMatches_foldl {α : Type} (fetch : String → Except String α)
    (ls : List String) (hnd : ls.Nodup) (m : List (String × α))
    (d : List String) (hdisj : ∀ l ∈ ls, l ∉ m.map Prod.fst) :
    ls.foldl
      (fun acc link =>
        match fetch link with
        | .ok v => (dictSet acc.1 link v, acc.2)
        | .error msg => (acc.1, acc.2 ++ [matchDiag link msg]))
      (m, d) = (m ++ scrapeSuccesses fetch ls, d ++ scrapeDiags fetch ls) := by
  induction ls generalizing m d with
  | nil => simp [scrapeSuccesses, scrapeDiags]
  | cons l rest ih =>
    have hndr : rest.Nodup := hnd.of_cons
    have hlm : l ∉ m.map Prod.fst := hdisj l (List.mem_cons_self l rest)
    rw [List.foldl_cons]
    cases hf : fetch l with
    | ok v =>
      have hdisj2 : ∀ x ∈ rest, x ∉ (dictSet m l v).map Prod.fst := by
        intro x hx
        rw [dictSet_append_of_not_mem m l v hlm]
        simp only [List.map_append, List.mem_append, List.map_cons,
          List.map_nil, List.mem_singleton]
        rintro (hxm | hxl)
        · exact hdisj x (List.mem_cons_of_mem l hx) hxm
        · exact (List.nodup_cons.mp hnd).1 (hxl ▸ hx)
      dsimp only
      rw [ih hndr _ _ hdisj2, dictSet_append_of_not_mem m l v hlm]
      simp [scrapeSuccesses, scrapeDiags, hf]
    | error msg =>
      have hdisj2 : ∀ x ∈ rest, x ∉ m.map Prod.fst := fun x hx =>
        hdisj x (List.mem_cons_of_mem l hx)
      dsimp only
      rw [ih hndr _ _ hdisj2]
      simp [scrapeSuccesses, scrapeDiags, hf]

/-- C2 (amended, for `_scrape_matches` / `_scrape_teams`).  The orchestrator
slices the links, attempts each link of the slice in order, and returns: a
mapping containing exactly the links whose fetch succeeded, in order, bound
to their results; and one diagnostic, naming the link and the error, for each
link whose fetch raised.  The function is total — a failing item never
re-raises.  (The claim's "never re-raising" is false for the third
orchestrator, `scrape_players_from_league`: see the counterexample.) -/
theorem scrapeMatches_spec {α : Type} (fetch : String → Except String α)
    (matchLinks : List String) (init : Nat) (e : Int)
    (hnd : (sliceInitEnd matchLinks init e).Nodup) :
    scrapeMatches fetch matchLinks init e =
      (scrapeSuccesses fetch (sliceInitEnd matchLinks init e),
       scrapeDiags fetch (sliceInitEnd matchLinks init e)) := by
  rw [scrapeMatches, scrapeMatches_foldl fetch _ hnd [] [] (by simp)]
  simp

/-- A concrete single-match fetch for the batch scenario: the second
identifier fails with a `NotFoundError`, the others succeed. -/
def exBatchFetch : String → Except String String := fun l =>
  if l = "m2" then .error "NotFoundError" else .ok l

/-- Witness for C2's amended theorem: three links of which the second fails;
the mapping holds exactly the first and third, and one diagnostic names the
second. -/
theorem scrapeMatches_spec_witness :
    scrapeMatches exBatchFetch ["m1", "m2", "m3"] 0 (-1) =
      ([("m1", "m1"), ("m3", "m3")],
       ["Error scraping match m2: NotFoundError"]) := by
  rw [scrapeMatches_spec exBatchFetch ["m1", "m2", "m3"] 0 (-1) (by decide)]
  rfl

/-- The `player_name` lookup of `scrape_players_from_league`:
`players_data[players_data['id'] == player_id]['player_name'].values[0]`,
i.e. the name on the first sliced row carrying this id. -/
def lookupPlayerName (rows : List (Int × String)) (pid : Int) : String :=
  ((rows.find? (fun r => r.1 == pid)).map Prod.snd).getD ""

/-- `scrape_players_from_league`'s batch loop over the sliced player table
(rows of `(id, player_name)`, ids already `astype(int)`).  There is no
`try`/`except`: a raised fetch propagates out of the loop, so the function
either returns the complete `players` dict (keyed by *name*) or re-raises
the first failure. -/
def scrapePlayersFromLeague {α : Type} (fetch : Int → Except String α)
    (playersData : List (Int × String)) (init : Nat) (e : Int) :
    Except String (List (String × α)) :=
  (sliceInitEnd playersData init e).foldlM
    (fun players r =>
      match fetch r.1 with
      | .ok stats =>
          .ok (dictSet players
            (lookupPlayerName (sliceInitEnd playersData init e) r.1) stats)
      | .error msg => .error msg)
    []

/-- A concrete player fetch: id 2 fails with a `NotFoundError`. -/
def exPlayersFetch : Int → Except String Int := fun n =>
  if n = 2 then .error "NotFoundError" else .ok n

/-- C2 (counterexample).  For the player-batch orchestrator
`scrape_players_from_league` — one of the claim's two sources — three
identifiers of which the second raises `NotFoundError` do *not* yield a
mapping with the first and third entries: the loop has no `try`/`except`,
so the error propagates and the batch aborts with nothing returned. -/
theorem scrapePlayersFromLeague_counterexample :
    scrapePlayersFromLeague exPlayersFetch [(1, "A"), (2, "B"), (3, "C")]
      0 (-1) = .error "NotFoundError" := rfl

/-! ### Shots normalizer `_get_shots_df` (C3)

```python
shots_df = pd.concat([pd.DataFrame(shots_json["h"]), pd.DataFrame(shots_json["a"])])
shots_df['minute'] = shots_df['minute'].astype(int)
shots_df.sort_values(by=['minute'], inplace=True)
```

The decoded groups are lists of per-shot dicts; `pd.concat` preserves both
row sequences, home first.  `sort_values` is called with the default
`kind='quicksort'` (numpy introsort), whose documented guarantee is a
permutation that is non-decreasing in the key, *without* stability, so the
sort is a parameter constrained by `validSortValues`. -/

/-- `Option`-valued map, evaluated left to right: the embedding of a Python
loop that may raise on any element. -/
def listMapM {β γ : Type} (g : β → Option γ) : List β → Option (List γ)
  | [] => some []
  | x :: xs => do
    let y ← g x
    let ys ← listMapM g xs
    pure (y :: ys)

theorem listMapM_length {β γ : Type} (g : β → Option γ) (xs : List β)
    (ys : List γ) (h : listMapM g xs = some ys) : ys.length = xs.length := by
  induction xs generalizing ys with
  | nil =>
    rw [listMapM] at h
    cases h
    rfl
  | cons x rest ih =>
    rw [listMapM] at h
    cases hx : g x with
    | none => rw [hx] at h; exact absurd h (by simp)
    | some y =>
      rw [hx] at h
      cases hrest : listMapM g rest with
      | none => rw [hrest] at h; exact absurd h (by simp)
      | some zs =>
        rw [hrest] at h
        simp only [Option.pure_def, Option.bind_eq_bind, Option.some_bind,
          Option.some.injEq] at h
        subst h
        simp [ih zs hrest]

/-- The value of a decimal digit character. -/
def digitVal (c : Char) : Option Nat :=
  if 48 ≤ c.toNat ∧ c.toNat ≤ 57 then some (c.toNat - 48) else none

def digitsToNatAux : List Char → Nat → Option Nat
  | [], acc => some acc
  | c :: cs, acc =>
    match digitVal c with
    | some d => digitsToNatAux cs (acc * 10 + d)
    | none => none

/-- A non-empty all-digit character sequence, as a number. -/
def digitsToNat : List Char → Option Nat
  | [] => none
  | cs => digitsToNatAux cs 0

/-- Python `int(s)` on a decimal string: an optional sign then digits.
(Surrounding whitespace and digit-group underscores, which Python also
accepts, do not occur in the data of interest and are not modelled.) -/
def pyIntOfString (s : String) : Option Int :=
  match s.data with
  | [] => none
  | c :: cs =>
    if c = Char.ofNat 45 then (digitsToNat cs).map (fun n => -(n : Int))
    else if c = Char.ofNat 43 then (digitsToNat cs).map (fun n => (n : Int))
    else (digitsToNat (c :: cs)).map (fun n => (n : Int))

/-- Python `int(x)`, as `astype(int)` applies it to a decoded JSON cell. -/
def pyToInt : Json → Option Int
  | .num n => some n
  | .str s => pyIntOfString s
  | .bool b => some (if b then 1 else 0)
  | _ => none

/-- The `astype(int)` step on one row: the `minute` cell is replaced by its
integer value (Python raises when it is missing or non-numeric). -/
def astypeMinute (r : Row) : Option Row := do
  let v ← rowLookup r "minute"
  let n ← pyToInt v
  pure (dictSet r "minute" (Json.num n))

/-- The minute key a row is sorted by (after `astype` it is always a
`Json.num`; the fallback `0` is never reached on the rows being sorted). -/
def minuteOf (r : Row) : Int :=
  match rowLookup r "minute" with
  | some (.num n) => n
  | _ => 0

/-- Row order of the minute column. -/
def minuteLe (p q : Row) : Prop := minuteOf p ≤ minuteOf q

instance : DecidableRel minuteLe := fun p q => Int.decLe (minuteOf p) (minuteOf q)

instance : IsTotal Row minuteLe := ⟨fun p q => Int.le_total (minuteOf p) (minuteOf q)⟩

instance : IsTrans Row minuteLe := ⟨fun _ _ _ h1 h2 => Int.le_trans h1 h2⟩

/-- What pandas `sort_values(by=['minute'])` with the default
`kind='quicksort'` guarantees of the row order: a permutation of the input
rows, non-decreasing in the minute key.  Stability is *not* guaranteed. -/
def validSortValues (f : List Row → List Row) : Prop :=
  ∀ rows : List Row, (f rows).Perm rows ∧ List.Sorted minuteLe (f rows)

/-- The sorted order demanded by the claim: non-decreasing minutes with ties
kept in the original concatenation order — i.e. exactly the *stable* sort of
the row sequence by minute. -/
def sortByMinute (rows : List Row) : List Row :=
  List.insertionSort minuteLe rows

/-- `_get_shots_df` on the decoded groups `shots_json["h"]` and
`shots_json["a"]`, parameterized by the pandas sort: concatenate home rows
then away rows, convert the minute column to `int`, sort by minute. -/
def getShotsRows (sortImpl : List Row → List Row) (h a : List Row) :
    Option (List Row) := do
  let rows ← listMapM astypeMinute (h ++ a)
  pure (sortImpl rows)

/-- C3 (amended).  For every decoded shots object with groups `h` and `a`
(on which the minute conversion succeeds) and every sort satisfying the
pandas `sort_values` guarantee, the output has exactly `|h| + |a|` rows and
is non-decreasing in the minute key.  The claim's stable tie-breaking by
concatenation order is *not* part of the guarantee: the default sort kind
`'quicksort'` is not stable (see the counterexample). -/
theorem getShotsRows_spec (f : List Row → List Row) (hf : validSortValues f)
    (h a out : List Row) (hout : getShotsRows f h a = some out) :
    out.length = h.length + a.length ∧ List.Sorted minuteLe out := by
  rw [getShotsRows] at hout
  cases hrows : listMapM astypeMinute (h ++ a) with
  | none => rw [hrows] at hout; exact absurd hout (by simp)
  | some rows =>
    rw [hrows] at hout
    simp only [Option.pure_def, Option.bind_eq_bind, Option.some_bind,
      Option.some.injEq] at hout
    obtain ⟨hperm, hsort⟩ := hf rows
    subst hout
    refine ⟨?_, hsort⟩
    rw [hperm.length_eq, listMapM_length astypeMinute (h ++ a) rows hrows,
      List.length_append]

def exTieH : Row := [("minute", Json.str "5"), ("player", Json.str "h1")]

def exTieA : Row := [("minute", Json.str "5"), ("player", Json.str "a1")]

def exTieH2 : Row := [("minute", Json.num 5), ("player", Json.str "h1")]

def exTieA2 : Row := [("minute", Json.num 5), ("player", Json.str "a1")]

/-- Witness for C3's amended theorem: one home shot and one away shot, both
at minute 5, sorted with the stable sort (which satisfies the pandas
guarantee); two rows come out, non-decreasing in the minute. -/
theorem getShotsRows_spec_witness :
    ([exTieH2, exTieA2] : List Row).length = [exTieH].length + [exTieA].length ∧
    List.Sorted minuteLe [exTieH2, exTieA2] :=
  getShotsRows_spec sortByMinute
    (fun rows => ⟨List.perm_insertionSort minuteLe rows,
      List.sorted_insertionSort minuteLe rows⟩)
    [exTieH] [exTieA] [exTieH2, exTieA2] (by rfl)

/-- A sort satisfying the pandas guarantee that reverses ties: stable-sort
the reversed row sequence. -/
def shotsRevSort : List Row → List Row := fun rows =>
  List.insertionSort minuteLe rows.reverse

/-- The player tags of a row sequence — a projection separating the two tied
rows of the counterexample. -/
def playerTags (rows : List Row) : List String :=
  rows.map (fun r =>
    match (rowLookup r "player" : Option Json) with
    | some (Json.str s) => s
    | _ => "")

/-- C3 (counterexample).  `shotsRevSort` satisfies everything pandas
guarantees of `sort_values(kind='quicksort')`, yet on a home shot and an
away shot both at minute 5 the normalizer built on it returns the away row
first — not the claim's stable concatenation order (home first), which the
stable sort `sortByMinute` realizes.  The tie order of the code is therefore
not a consequence of the source. -/
theorem getShotsRows_stability_counterexample :
    validSortValues shotsRevSort ∧
    getShotsRows shotsRevSort [exTieH] [exTieA] = some [exTieA2, exTieH2] ∧
    sortByMinute [exTieH2, exTieA2] = [exTieH2, exTieA2] ∧
    [exTieA2, exTieH2] ≠ [exTieH2, exTieA2] := by
  refine ⟨?_, by rfl, by rfl, ?_⟩
  · intro rows
    exact ⟨(List.perm_insertionSort minuteLe rows.reverse).trans
      (List.reverse_perm rows), List.sorted_insertionSort minuteLe rows.reverse⟩
  · intro hcontra
    exact absurd (congrArg playerTags hcontra) (by decide)

/-! ### The DataFrame model (games, positions, team histories)

All pandas operations the code performs are column-wise, so a frame is its
ordered list of named columns plus a row count; a well-formed frame's
columns all have `nrows` cells. -/

structure DataFrame where
  nrows : Nat
  cols : List (String × List Json)

/-- The column names, in order. -/
def colNames (df : DataFrame) : List String := rowKeys df.cols

/-- `df[dst] = vals`: replace the column in place, or append it. -/
def dfSetCol (df : DataFrame) (dst : String) (vals : List Json) : DataFrame :=
  ⟨df.nrows, dictSet df.cols dst vals⟩

/-- `df.drop(columns=names)` (`KeyError` when any name is absent). -/
def dfDrop (df : DataFrame) (names : List String) : Option DataFrame :=
  if names.all (fun n => (colNames df).contains n) then
    some ⟨df.nrows, df.cols.filter (fun kv => !(names.contains kv.1))⟩
  else none

/-- Keys of `r` merged into `acc`, preserving first-appearance order. -/
def insertAbsent (acc : List String) (k : String) : List String :=
  if acc.contains k then acc else acc ++ [k]

/-- The column names `pd.DataFrame(records)` derives from a list of dicts:
all keys, in order of first appearance. -/
def recordKeys (recs : List Row) : List String :=
  recs.foldl (fun acc r => (rowKeys r).foldl insertAbsent acc) []

/-- The cells of column `k` of `pd.DataFrame(records)`: each record's value
for `k`, `NaN` (`Json.null`) when absent. -/
def colOf (recs : List Row) (k : String) : List Json :=
  recs.map (fun r => (rowLookup r k).getD Json.null)

/-- `pd.DataFrame(records)` on a list of dicts: one row per record, columns
the keys in first-appearance order, a missing key giving `NaN`
(`Json.null`). -/
def dfOfRecords (recs : List Row) : DataFrame :=
  ⟨recs.length, (recordKeys recs).map (fun k => (k, colOf recs k))⟩

/-- `x[field]` on a cell: the cell must be a dict holding `field`. -/
def getField (j : Json) (k : String) : Option Json :=
  match j with
  | .obj fields => rowLookup fields k
  | _ => none

/-- `df[dst] = df[src].apply(lambda x: x[field])`: read the source column,
extract `field` from each of its cells, bind the result as column `dst`. -/
def applyField (df : DataFrame) (dst src field : String) : Option DataFrame := do
  let col ← rowLookup df.cols src
  let vals ← listMapM (fun x => getField x field) col
  pure (dfSetCol df dst vals)

/-- `_transform_games_data_df`, line for line: thirteen column assignments
unnesting `h`, `a`, `goals`, `xG`, `forecast`, then
`drop(columns=['h', 'a', 'goals', 'xG', 'forecast'], inplace=True)`.
Assignments and the drop act in place on the argument, which is returned. -/
def transformGamesDataDf (df : DataFrame) : Option DataFrame := do
  let df ← applyField df "home_team_id" "h" "id"
  let df ← applyField df "home_team_name" "h" "title"
  let df ← applyField df "home_team_short_name" "h" "short_title"
  let df ← applyField df "away_team_id" "a" "id"
  let df ← applyField df "away_team_name" "a" "title"
  let df ← applyField df "away_team_short_name" "a" "short_title"
  let df ← applyField df "home_goals" "goals" "h"
  let df ← applyField df "away_goals" "goals" "a"
  let df ← applyField df "home_xG" "xG" "h"
  let df ← applyField df "away_xG" "xG" "a"
  let df ← applyField df "forecast_win" "forecast" "w"
  let df ← applyField df "forecast_draw" "forecast" "d"
  let df ← applyField df "forecast_loss" "forecast" "l"
  dfDrop df ["h", "a", "goals", "xG", "forecast"]

/-- The five nested columns the games normalizer unnests and drops. -/
def nestedGameCols : List String := ["h", "a", "goals", "xG", "forecast"]

/-- The thirteen flat columns the games normalizer synthesizes. -/
def flatGameCols : List String :=
  ["home_team_id", "home_team_name", "home_team_short_name",
   "away_team_id", "away_team_name", "away_team_short_name",
   "home_goals", "away_goals", "home_xG", "away_xG",
   "forecast_win", "forecast_draw", "forecast_loss"]

/-- Does the record hold field `k` as a dict with (at least) the given
inner keys?  (What each `.apply(lambda x: x[...])` of the games transform
needs of every record.) -/
def hasObjField (r : Row) (k : String) (inner : List String) : Bool :=
  match (rowLookup r k : Option Json) with
  | some (Json.obj fields) => inner.all (fun i => (rowKeys fields).contains i)
  | _ => false

/-- A match record of the shape the games normalizer consumes. -/
def gamesRecordWf (r : Row) : Bool :=
  hasObjField r "h" ["id", "title", "short_title"] &&
  hasObjField r "a" ["id", "title", "short_title"] &&
  hasObjField r "goals" ["h", "a"] &&
  hasObjField r "xG" ["h", "a"] &&
  hasObjField r "forecast" ["w", "d", "l"]

/-! #### Association-list and column lemmas -/

theorem rowLookup_isSome_iff {β : Type} (r : List (String × β)) (k : String) :
    (rowLookup r k).isSome = true ↔ k ∈ rowKeys r := by
  induction r with
  | nil => simp [rowLookup, rowKeys]
  | cons kv rest ih =>
    by_cases h : kv.1 = k
    · simp [rowLookup, h, rowKeys]
    · rw [rowLookup, if_neg h, ih]
      simp only [rowKeys, List.map_cons, List.mem_cons]
      exact ⟨Or.inr, fun hm => hm.resolve_left (fun hh => h hh.symm)⟩

theorem mem_rowKeys_dictSet {β : Type} (r : List (String × β)) (k c : String)
    (v : β) : c ∈ rowKeys (dictSet r k v) ↔ c = k ∨ c ∈ rowKeys r := by
  induction r with
  | nil => simp [dictSet, rowKeys]
  | cons kv rest ih =>
    by_cases h : kv.1 = k
    · subst h
      simp [dictSet, rowKeys]
    · rw [dictSet, if_neg h]
      simp only [rowKeys, List.map_cons, List.mem_cons] at ih ⊢
      rw [ih]
      tauto

theorem rowLookup_dictSet_ne {β : Type} (r : List (String × β)) (k c : String)
    (v : β) (h : c ≠ k) :
    rowLookup (dictSet r k v) c = rowLookup r c := by
  induction r with
  | nil =>
    simp only [dictSet, rowLookup]
    rw [if_neg (fun hh : k = c => h hh.symm)]
  | cons kv rest ih =>
    by_cases hk : kv.1 = k
    · subst hk
      rw [dictSet, if_pos rfl, rowLookup, rowLookup,
        if_neg (fun hh : kv.1 = c => h hh.symm),
        if_neg (fun hh : kv.1 = c => h hh.symm)]
    · rw [dictSet, if_neg hk, rowLookup, rowLookup]
      by_cases hc : kv.1 = c
      · rw [if_pos hc, if_pos hc]
      · rw [if_neg hc, if_neg hc, ih]

theorem rowLookup_dictSet_self {β : Type} (r : List (String × β)) (k : String)
    (v : β) : rowLookup (dictSet r k v) k = some v := by
  induction r with
  | nil => simp [dictSet, rowLookup]
  | cons kv rest ih =>
    by_cases h : kv.1 = k
    · rw [dictSet, if_pos h, rowLookup, if_pos rfl]
    · rw [dictSet, if_neg h, rowLookup, if_neg h, ih]

theorem listMapM_isSome {β γ : Type} (g : β → Option γ) (xs : List β)
    (h : ∀ x ∈ xs, (g x).isSome = true) : ∃ ys, listMapM g xs = some ys := by
  induction xs with
  | nil => exact ⟨[], rfl⟩
  | cons x rest ih =>
    obtain ⟨y, hy⟩ := Option.isSome_iff_exists.mp (h x (List.mem_cons_self x rest))
    obtain ⟨ys, hys⟩ := ih (fun z hz => h z (List.mem_cons_of_mem x hz))
    refine ⟨y :: ys, ?_⟩
    rw [listMapM, hy, hys]
    rfl

theorem mem_insertAbsent (acc : List String) (k x : String) :
    x ∈ insertAbsent acc k ↔ x = k ∨ x ∈ acc := by
  rw [insertAbsent]
  by_cases h : acc.contains k
  · rw [if_pos h]
    have hk : k ∈ acc := List.elem_iff.mp h
    constructor
    · exact Or.inr
    · rintro (rfl | hx)
      · exact hk
      · exact hx
  · rw [if_neg h]
    simp [or_comm]

theorem mem_foldl_insertAbsent_acc (ks : List String) (acc : List String)
    (x : String) (hx : x ∈ acc) : x ∈ ks.foldl insertAbsent acc := by
  induction ks generalizing acc with
  | nil => exact hx
  | cons k rest ih =>
    exact ih _ ((mem_insertAbsent acc k x).mpr (Or.inr hx))

theorem mem_foldl_insertAbsent (ks : List String) (acc : List String)
    (x : String) (hx : x ∈ ks) : x ∈ ks.foldl insertAbsent acc := by
  induction ks generalizing acc with
  | nil => cases hx
  | cons k rest ih =>
    rcases List.mem_cons.mp hx with h | h
    · subst h
      exact mem_foldl_insertAbsent_acc rest _ x
        ((mem_insertAbsent acc x x).mpr (Or.inl rfl))
    · exact ih _ h

theorem mem_foldl_records_acc (recs : List Row) (acc : List String) (k : String)
    (hk : k ∈ acc) :
    k ∈ recs.foldl (fun acc r2 => (rowKeys r2).foldl insertAbsent acc) acc := by
  induction recs generalizing acc with
  | nil => exact hk
  | cons r0 rest ih => exact ih _ (mem_foldl_insertAbsent_acc _ _ _ hk)

theorem mem_foldl_records (recs : List Row) (acc : List String) (r : Row)
    (k : String) (hr : r ∈ recs) (hk : k ∈ rowKeys r) :
    k ∈ recs.foldl (fun acc r2 => (rowKeys r2).foldl insertAbsent acc) acc := by
  induction recs generalizing acc with
  | nil => cases hr
  | cons r0 rest ih =>
    rcases List.mem_cons.mp hr with h | h
    · subst h
      exact mem_foldl_records_acc rest _ k (mem_foldl_insertAbsent _ _ _ hk)
    · exact ih _ h

theorem mem_recordKeys (recs : List Row) (r : Row) (k : String)
    (hr : r ∈ recs) (hk : k ∈ rowKeys r) : k ∈ recordKeys recs :=
  mem_foldl_records recs [] r k hr hk

theorem rowLookup_map_keyed (ks : List String) (g : String → List Json)
    (k : String) (hk : k ∈ ks) :
    rowLookup (ks.map (fun k2 => (k2, g k2))) k = some (g k) := by
  induction ks with
  | nil => cases hk
  | cons k0 rest ih =>
    by_cases h : k0 = k
    · subst h
      simp [rowLookup]
    · rcases List.mem_cons.mp hk with hh | hh
      · exact absurd hh.symm h
      · simp only [List.map_cons]
        rw [rowLookup, if_neg h]
        exact ih hh

theorem rowLookup_dfOfRecords (recs : List Row) (k : String)
    (hk : k ∈ recordKeys recs) :
    rowLookup (dfOfRecords recs).cols k = some (colOf recs k) :=
  rowLookup_map_keyed (recordKeys recs) (colOf recs) k hk

/-- Invariant threaded through the games transform: the row count and the
five nested source columns are still those of the input records. -/
def gamesInv (df : DataFrame) (recs : List Row) : Prop :=
  df.nrows = recs.length ∧
  ∀ s ∈ nestedGameCols, rowLookup df.cols s = some (colOf recs s)

theorem hasObjField_mem_keys (r : Row) (k : String) (inner : List String)
    (h : hasObjField r k inner = true) : k ∈ rowKeys r := by
  rw [hasObjField] at h
  cases hsrc : (rowLookup r k : Option Json) with
  | none => rw [hsrc] at h; exact Bool.noConfusion h
  | some j =>
    apply (rowLookup_isSome_iff r k).mp
    rw [hsrc]
    rfl

theorem cells_ok (recs : List Row) (src field : String) (inner : List String)
    (hfwf : ∀ r ∈ recs, hasObjField r src inner = true) (hfield : field ∈ inner) :
    ∀ x ∈ colOf recs src, (getField x field).isSome = true := by
  intro x hx
  obtain ⟨r, hr, rfl⟩ := List.mem_map.mp hx
  have hw := hfwf r hr
  rw [hasObjField] at hw
  cases hsrc : (rowLookup r src : Option Json) with
  | none => rw [hsrc] at hw; exact Bool.noConfusion hw
  | some j =>
    rw [hsrc] at hw
    cases j with
    | obj fields =>
      have hcf : field ∈ rowKeys fields :=
        List.elem_iff.mp (List.all_eq_true.mp hw field hfield)
      simp only [hsrc, Option.getD_some, getField]
      exact (rowLookup_isSome_iff fields field).mpr hcf
    | str s => exact Bool.noConfusion hw
    | num n => exact Bool.noConfusion hw
    | bool b => exact Bool.noConfusion hw
    | null => exact Bool.noConfusion hw
    | arr es => exact Bool.noConfusion hw

theorem gamesStep (df : DataFrame) (recs : List Row) (dst src field : String)
    (inner : List String) (hInv : gamesInv df recs)
    (hsrc : src ∈ nestedGameCols) (hdst : dst ∉ nestedGameCols)
    (hfwf : ∀ r ∈ recs, hasObjField r src inner = true) (hfield : field ∈ inner) :
    ∃ vals, applyField df dst src field = some (dfSetCol df dst vals) ∧
      gamesInv (dfSetCol df dst vals) recs := by
  obtain ⟨hn, hcols⟩ := hInv
  obtain ⟨vals, hvals⟩ := listMapM_isSome (fun x => getField x field)
    (colOf recs src) (cells_ok recs src field inner hfwf hfield)
  refine ⟨vals, ?_, hn, ?_⟩
  · rw [applyField, hcols src hsrc]
    simp [hvals]
  · intro s hs
    have hne : s ≠ dst := fun hh => hdst (hh ▸ hs)
    rw [show (dfSetCol df dst vals).cols = dictSet df.cols dst vals from rfl,
      rowLookup_dictSet_ne df.cols dst s vals hne]
    exact hcols s hs

theorem mem_rowKeys_filterDrop (cols : List (String × List Json))
    (names : List String) (c : String) :
    c ∈ rowKeys (cols.filter (fun kv => !(names.contains kv.1))) ↔
      c ∈ rowKeys cols ∧ names.contains c = false := by
  constructor
  · intro h
    obtain ⟨kv, hkv, rfl⟩ := List.mem_map.mp h
    obtain ⟨hmem, hflt⟩ := List.mem_filter.mp hkv
    refine ⟨List.mem_map.mpr ⟨kv, hmem, rfl⟩, ?_⟩
    simpa using hflt
  · rintro ⟨h, hc⟩
    obtain ⟨kv, hkv, rfl⟩ := List.mem_map.mp h
    refine List.mem_map.mpr ⟨kv, List.mem_filter.mpr ⟨hkv, ?_⟩, rfl⟩
    simpa using hc

theorem gamesDrop (df : DataFrame) (recs : List Row) (hInv : gamesInv df recs) :
    ∃ out, dfDrop df ["h", "a", "goals", "xG", "forecast"] = some out ∧
      out.nrows = recs.length ∧
      (∀ c ∈ nestedGameCols, c ∉ colNames out) ∧
      (∀ c, c ∈ colNames df → c ∉ nestedGameCols → c ∈ colNames out) := by
  have hcond : (["h", "a", "goals", "xG", "forecast"].all
      (fun n => (colNames df).contains n)) = true := by
    apply List.all_eq_true.mpr
    intro s hs
    apply List.elem_iff.mpr
    have hlk := hInv.2 s (by simpa [nestedGameCols] using hs)
    exact (rowLookup_isSome_iff df.cols s).mp (by rw [hlk]; rfl)
  refine ⟨⟨df.nrows, df.cols.filter
      (fun kv => !((["h", "a", "goals", "xG", "forecast"]).contains kv.1))⟩,
    ?_, hInv.1, ?_, ?_⟩
  · rw [dfDrop, if_pos hcond]
  · intro c hc hmem
    have hsplit := (mem_rowKeys_filterDrop df.cols
      ["h", "a", "goals", "xG", "forecast"] c).mp hmem
    have hct : (["h", "a", "goals", "xG", "forecast"]).contains c = true :=
      List.elem_iff.mpr (by simpa [nestedGameCols] using hc)
    rw [hsplit.2] at hct
    exact Bool.noConfusion hct
  · intro c hcdf hcnot
    apply (mem_rowKeys_filterDrop df.cols
      ["h", "a", "goals", "xG", "forecast"] c).mpr
    refine ⟨hcdf, ?_⟩
    cases hcc : (["h", "a", "goals", "xG", "forecast"]).contains c
    · rfl
    · exact absurd (by simpa [nestedGameCols] using List.elem_iff.mp hcc) hcnot

/-- C4 (amended).  For every *non-empty* array of well-shaped match records,
the games normalizer succeeds with exactly one row per input record, its
column set contains none of `h`, `a`, `goals`, `xG`, `forecast`, and it
contains all thirteen prefixed flat columns.  (On the empty array the claim
fails: pandas derives no columns from `[]`, so the very first column access
`games_data_df['h']` raises `KeyError` — see the counterexample.) -/
theorem transformGamesDataDf_spec (recs : List Row) (hne : recs ≠ [])
    (hwf : ∀ r ∈ recs, gamesRecordWf r = true) :
    ∃ out, transformGamesDataDf (dfOfRecords recs) = some out ∧
      out.nrows = recs.length ∧
      (∀ c ∈ nestedGameCols, c ∉ colNames out) ∧
      (∀ c ∈ flatGameCols, c ∈ colNames out) := by
  have hwfsplit : ∀ r ∈ recs,
      hasObjField r "h" ["id", "title", "short_title"] = true ∧
      hasObjField r "a" ["id", "title", "short_title"] = true ∧
      hasObjField r "goals" ["h", "a"] = true ∧
      hasObjField r "xG" ["h", "a"] = true ∧
      hasObjField r "forecast" ["w", "d", "l"] = true := by
    intro r hr
    have hh := hwf r hr
    rw [gamesRecordWf] at hh
    simp only [Bool.and_eq_true] at hh
    exact ⟨hh.1.1.1.1, hh.1.1.1.2, hh.1.1.2, hh.1.2, hh.2⟩
  have hbase : gamesInv (dfOfRecords recs) recs := by
    refine ⟨rfl, ?_⟩
    intro s hs
    apply rowLookup_dfOfRecords
    obtain ⟨r0, rest, rfl⟩ : ∃ r0 rest, recs = r0 :: rest := by
      cases recs with
      | nil => exact absurd rfl hne
      | cons a b => exact ⟨a, b, rfl⟩
    apply mem_recordKeys _ r0 _ (List.mem_cons_self r0 rest)
    have h5 := hwfsplit r0 (List.mem_cons_self r0 rest)
    have hs5 : s = "h" ∨ s = "a" ∨ s = "goals" ∨ s = "xG" ∨ s = "forecast" := by
      simpa [nestedGameCols] using hs
    rcases hs5 with rfl | rfl | rfl | rfl | rfl
    · exact hasObjField_mem_keys _ _ _ h5.1
    · exact hasObjField_mem_keys _ _ _ h5.2.1
    · exact hasObjField_mem_keys _ _ _ h5.2.2.1
    · exact hasObjField_mem_keys _ _ _ h5.2.2.2.1
    · exact hasObjField_mem_keys _ _ _ h5.2.2.2.2
  obtain ⟨v1, e1, i1⟩ := gamesStep _ recs "home_team_id" "h" "id"
    ["id", "title", "short_title"] hbase (by decide) (by decide)
    (fun r hr => (hwfsplit r hr).1) (by decide)
  obtain ⟨v2, e2, i2⟩ := gamesStep _ recs "home_team_name" "h" "title"
    ["id", "title", "short_title"] i1 (by decide) (by decide)
    (fun r hr => (hwfsplit r hr).1) (by decide)
  obtain ⟨v3, e3, i3⟩ := gamesStep _ recs "home_team_short_name" "h" "short_title"
    ["id", "title", "short_title"] i2 (by decide) (by decide)
    (fun r hr => (hwfsplit r hr).1) (by decide)
  obtain ⟨v4, e4, i4⟩ := gamesStep _ recs "away_team_id" "a" "id"
    ["id", "title", "short_title"] i3 (by decide) (by decide)
    (fun r hr => (hwfsplit r hr).2.1) (by decide)
  obtain ⟨v5, e5, i5⟩ := gamesStep _ recs "away_team_name" "a" "title"
    ["id", "title", "short_title"] i4 (by decide) (by decide)
    (fun r hr => (hwfsplit r hr).2.1) (by decide)
  obtain ⟨v6, e6, i6⟩ := gamesStep _ recs "away_team_short_name" "a" "short_title"
    ["id", "title", "short_title"] i5 (by decide) (by decide)
    (fun r hr => (hwfsplit r hr).2.1) (by decide)
  obtain ⟨v7, e7, i7⟩ := gamesStep _ recs "home_goals" "goals" "h"
    ["h", "a"] i6 (by decide) (by decide)
    (fun r hr => (hwfsplit r hr).2.2.1) (by decide)
  obtain ⟨v8, e8, i8⟩ := gamesStep _ recs "away_goals" "goals" "a"
    ["h", "a"] i7 (by decide) (by decide)
    (fun r hr => (hwfsplit r hr).2.2.1) (by decide)
  obtain ⟨v9, e9, i9⟩ := gamesStep _ recs "home_xG" "xG" "h"
    ["h", "a"] i8 (by decide) (by decide)
    (fun r hr => (hwfsplit r hr).2.2.2.1) (by decide)
  obtain ⟨v10, e10, i10⟩ := gamesStep _ recs "away_xG" "xG" "a"
    ["h", "a"] i9 (by decide) (by decide)
    (fun r hr => (hwfsplit r hr).2.2.2.1) (by decide)
  obtain ⟨v11, e11, i11⟩ := gamesStep _ recs "forecast_win" "forecast" "w"
    ["w", "d", "l"] i10 (by decide) (by decide)
    (fun r hr => (hwfsplit r hr).2.2.2.2) (by decide)
  obtain ⟨v12, e12, i12⟩ := gamesStep _ recs "forecast_draw" "forecast" "d"
    ["w", "d", "l"] i11 (by decide) (by decide)
    (fun r hr => (hwfsplit r hr).2.2.2.2) (by decide)
  obtain ⟨v13, e13, i13⟩ := gamesStep _ recs "forecast_loss" "forecast" "l"
    ["w", "d", "l"] i12 (by decide) (by decide)
    (fun r hr => (hwfsplit r hr).2.2.2.2) (by decide)
  obtain ⟨out, edrop, hnr, hnot, hkeep⟩ := gamesDrop _ recs i13
  refine ⟨out, ?_, hnr, hnot, ?_⟩
  · rw [transformGamesDataDf, e1]
    simp only [Option.pure_def, Option.bind_eq_bind, Option.some_bind]
    rw [e2]
    simp only [Option.some_bind]
    rw [e3]
    simp only [Option.some_bind]
    rw [e4]
    simp only [Option.some_bind]
    rw [e5]
    simp only [Option.some_bind]
    rw [e6]
    simp only [Option.some_bind]
    rw [e7]
    simp only [Option.some_bind]
    rw [e8]
    simp only [Option.some_bind]
    rw [e9]
    simp only [Option.some_bind]
    rw [e10]
    simp only [Option.some_bind]
    rw [e11]
    simp only [Option.some_bind]
    rw [e12]
    simp only [Option.some_bind]
    rw [e13]
    simp only [Option.some_bind]
    exact edrop
  · intro c hc
    have hcs : c = "home_team_id" ∨ c = "home_team_name" ∨
        c = "home_team_short_name" ∨ c = "away_team_id" ∨
        c = "away_team_name" ∨ c = "away_team_short_name" ∨
        c = "home_goals" ∨ c = "away_goals" ∨ c = "home_xG" ∨
        c = "away_xG" ∨ c = "forecast_win" ∨ c = "forecast_draw" ∨
        c = "forecast_loss" := by
      simpa [flatGameCols] using hc
    rcases hcs with rfl | rfl | rfl | rfl | rfl | rfl | rfl | rfl | rfl | rfl |
      rfl | rfl | rfl
    all_goals
      refine hkeep _ ?_ (by decide)
    all_goals
      simp [colNames, dfSetCol, mem_rowKeys_dictSet]

/-- C4 (counterexample).  On the empty match-record array — which satisfies
the claim's premise vacuously — the code does not return a zero-row table:
`pd.DataFrame([])` has no columns, so the first access `games_data_df['h']`
raises `KeyError` and the normalizer fails. -/
theorem transformGamesDataDf_empty_counterexample :
    transformGamesDataDf (dfOfRecords []) = none := rfl

/-- One fully-shaped match record, for the witness frames. -/
def exGameRec : Row :=
  [("id", Json.str "100"),
   ("isResult", Json.bool true),
   ("h", Json.obj [("id", Json.str "1"), ("title", Json.str "Alpha"),
     ("short_title", Json.str "ALP")]),
   ("a", Json.obj [("id", Json.str "2"), ("title", Json.str "Beta"),
     ("short_title", Json.str "BET")]),
   ("goals", Json.obj [("h", Json.str "2"), ("a", Json.str "1")]),
   ("xG", Json.obj [("h", Json.str "1.9"), ("a", Json.str "0.7")]),
   ("forecast", Json.obj [("w", Json.str "0.6"), ("d", Json.str "0.2"),
     ("l", Json.str "0.2")]),
   ("datetime", Json.str "2024-08-10")]

/-- Witness for C4's amended theorem at a concrete one-record table. -/
theorem transformGamesDataDf_spec_witness :
    ∃ out, transformGamesDataDf (dfOfRecords [exGameRec]) = some out ∧
      out.nrows = [exGameRec].length ∧
      (∀ c ∈ nestedGameCols, c ∉ colNames out) ∧
      (∀ c ∈ flatGameCols, c ∈ colNames out) :=
  transformGamesDataDf_spec [exGameRec] (List.cons_ne_nil exGameRec [])
    (fun r hr => by rw [List.mem_singleton.mp hr]; rfl)

theorem dfDrop_not_mem (df out : DataFrame) (names : List String)
    (h : dfDrop df names = some out) (c : String)
    (hc : names.contains c = true) : c ∉ colNames out := by
  rw [dfDrop] at h
  by_cases hcond : (names.all fun n => (colNames df).contains n) = true
  · rw [if_pos hcond] at h
    injection h with h
    intro hmem
    rw [← h] at hmem
    have hsplit := (mem_rowKeys_filterDrop df.cols names c).mp hmem
    rw [hsplit.2] at hc
    exact Bool.noConfusion hc
  · rw [if_neg hcond] at h
    exact absurd h (by simp)

/-- Success of `_transform_games_data_df` presupposes an `h` column on the
argument and guarantees its absence from the result. -/
theorem transformGamesDataDf_shape (df r : DataFrame)
    (h : transformGamesDataDf df = some r) :
    (rowLookup df.cols "h").isSome = true ∧ "h" ∉ colNames r := by
  rw [transformGamesDataDf] at h
  cases h1 : applyField df "home_team_id" "h" "id" with
  | none => rw [h1] at h; exact absurd h (by simp)
  | some df1 =>
    rw [h1] at h
    simp only [Option.pure_def, Option.bind_eq_bind, Option.some_bind] at h
    refine ⟨?_, ?_⟩
    · rw [applyField] at h1
      cases hlk : rowLookup df.cols "h" with
      | none => rw [hlk] at h1; exact absurd h1 (by simp)
      | some col => rfl
    · cases h2 : applyField df1 "home_team_name" "h" "title" with
      | none => rw [h2] at h; exact absurd h (by simp)
      | some df2 =>
        rw [h2] at h
        simp only [Option.some_bind] at h
        cases h3 : applyField df2 "home_team_short_name" "h" "short_title" with
        | none => rw [h3] at h; exact absurd h (by simp)
        | some df3 =>
          rw [h3] at h
          simp only [Option.some_bind] at h
          cases h4 : applyField df3 "away_team_id" "a" "id" with
          | none => rw [h4] at h; exact absurd h (by simp)
          | some df4 =>
            rw [h4] at h
            simp only [Option.some_bind] at h
            cases h5 : applyField df4 "away_team_name" "a" "title" with
            | none => rw [h5] at h; exact absurd h (by simp)
            | some df5 =>
              rw [h5] at h
              simp only [Option.some_bind] at h
              cases h6 : applyField df5 "away_team_short_name" "a" "short_title" with
              | none => rw [h6] at h; exact absurd h (by simp)
              | some df6 =>
                rw [h6] at h
                simp only [Option.some_bind] at h
                cases h7 : applyField df6 "home_goals" "goals" "h" with
                | none => rw [h7] at h; exact absurd h (by simp)
                | some df7 =>
                  rw [h7] at h
                  simp only [Option.some_bind] at h
                  cases h8 : applyField df7 "away_goals" "goals" "a" with
                  | none => rw [h8] at h; exact absurd h (by simp)
                  | some df8 =>
                    rw [h8] at h
                    simp only [Option.some_bind] at h
                    cases h9 : applyField df8 "home_xG" "xG" "h" with
                    | none => rw [h9] at h; exact absurd h (by simp)
                    | some df9 =>
                      rw [h9] at h
                      simp only [Option.some_bind] at h
                      cases h10 : applyField df9 "away_xG" "xG" "a" with
                      | none => rw [h10] at h; exact absurd h (by simp)
                      | some df10 =>
                        rw [h10] at h
                        simp only [Option.some_bind] at h
                        cases h11 : applyField df10 "forecast_win" "forecast" "w" with
                        | none => rw [h11] at h; exact absurd h (by simp)
                        | some df11 =>
                          rw [h11] at h
                          simp only [Option.some_bind] at h
                          cases h12 : applyField df11 "forecast_draw" "forecast" "d" with
                          | none => rw [h12] at h; exact absurd h (by simp)
                          | some df12 =>
                            rw [h12] at h
                            simp only [Option.some_bind] at h
                            cases h13 : applyField df12 "forecast_loss" "forecast" "l" with
                            | none => rw [h13] at h; exact absurd h (by simp)
                            | some df13 =>
                              rw [h13] at h
                              simp only [Option.some_bind] at h
                              exact dfDrop_not_mem df13 r _ h "h" (by decide)

/-- `_transform_games_data_df` with the caller's view made explicit: all
thirteen column assignments and the `drop(..., inplace=True)` act in place
on the argument, which is then returned — so after the call the argument's
state (second component) is the returned frame itself. -/
def transformGamesCallerView (df : DataFrame) : Option (DataFrame × DataFrame) :=
  (transformGamesDataDf df).map (fun r => (r, r))

/-- C6 (amended).  The games normalizer *does* mutate the structure passed
in: whenever the transformation succeeds, the caller's frame after the call
is the returned frame — which differs from the original (its `h` column is
gone).  The transformation does not operate on its own copy. -/
theorem transformGamesCallerView_mutates (df : DataFrame)
    (p : DataFrame × DataFrame) (hp : transformGamesCallerView df = some p) :
    p.2 = p.1 ∧ p.2 ≠ df := by
  rw [transformGamesCallerView] at hp
  cases htr : transformGamesDataDf df with
  | none => rw [htr] at hp; exact absurd hp (by simp)
  | some r =>
    rw [htr] at hp
    simp only [Option.map_some', Option.some.injEq] at hp
    obtain ⟨hin, hout⟩ := transformGamesDataDf_shape df r htr
    rw [← hp]
    refine ⟨rfl, ?_⟩
    intro heq
    have heq2 : r = df := heq
    apply hout
    rw [heq2]
    exact (rowLookup_isSome_iff df.cols "h").mp hin

/-- The concrete caller view at the one-record frame. -/
def exGamesView : DataFrame × DataFrame :=
  (transformGamesCallerView (dfOfRecords [exGameRec])).get (by rfl)

/-- Witness for C6's amended theorem at the one-record frame. -/
theorem transformGamesCallerView_mutates_witness :
    exGamesView.2 = exGamesView.1 ∧ exGamesView.2 ≠ dfOfRecords [exGameRec] :=
  transformGamesCallerView_mutates (dfOfRecords [exGameRec]) exGamesView
    (Option.some_get _).symm

/-- C6 (counterexample).  The claim says the caller's input is unchanged
after the call.  On the concrete one-record frame, the caller's frame after
the call (second component of the view) no longer has the `h` column, while
the frame passed in did: the input was mutated in place
(`games_data_df['home_team_id'] = ...`, `drop(..., inplace=True)`). -/
theorem transformGames_no_mutation_counterexample :
    (transformGamesCallerView (dfOfRecords [exGameRec])).map
        (fun p => (colNames p.2).contains "h") = some false ∧
    (colNames (dfOfRecords [exGameRec])).contains "h" = true :=
  ⟨rfl, rfl⟩

/-! ### League team histories `_get_teams_stats_league_df` (C5, C10)

```python
for _, item in teams_json.items():
    for _, item2 in item.items():
        if isinstance(item2, list):
            for dictionary in item2:
                for key2_2, item2_2 in item.items():
                    if isinstance(item2_2, str):
                        dictionary[key2_2] = item2_2

teams_dfs_list = []
for _, item in teams_json.items():
    teams_dfs_list.append(pd.DataFrame(item['history']))
```

Only *string*-valued siblings pass the `isinstance(item2_2, str)` guard.  The
nested `dictionary[key2_2] = item2_2` assignments mutate the decoded
`teams_json` in place; the per-team frames are then built from the mutated
history lists, and the embedding returns the frames together with the decoded
record's post-call state.  (The loop only ever writes into dict entries of
the lists; list entries of other shapes, which would make Python raise, are
outside every claim's input space and left unchanged here.) -/

/-- The innermost loop: copy every string-valued field of `item` into the
dict `d` (`dictionary[key2_2] = item2_2`). -/
def addStrFields (item : Row) (d : Row) : Row :=
  item.foldl
    (fun d2 kv =>
      match kv.2 with
      | Json.str s => dictSet d2 kv.1 (Json.str s)
      | _ => d2)
    d

/-- The copying applied to one entry of a list-valued field. -/
def copyIntoEntry (item : Row) (e : Json) : Json :=
  match e with
  | Json.obj d => Json.obj (addStrFields item d)
  | e => e

/-- The copying applied to one field of a team dict: only list-valued
fields are touched. -/
def copyField (item : Row) (kv : String × Json) : String × Json :=
  match kv.2 with
  | Json.arr es => (kv.1, Json.arr (es.map (copyIntoEntry item)))
  | _ => kv

/-- One team dict after the copying pass. -/
def copyStrSiblings (item : Row) : Row := item.map (copyField item)

/-- `pd.DataFrame(item['history'])`: the history is a list of dicts. -/
def historyDf (j : Json) : Option DataFrame :=
  match j with
  | Json.arr es =>
      (listMapM (fun e =>
        match e with
        | Json.obj d => some d
        | _ => none) es).map dfOfRecords
  | _ => none

/-- `_get_teams_stats_league_df` together with the argument's post-call
state: the in-place copying pass runs over every team first, then one frame
per team is built from its (mutated) `history` list. -/
def getTeamsStatsLeague (teams : List (String × Row)) :
    Option (List DataFrame × List (String × Row)) :=
  let ts := teams.map (fun p => (p.1, copyStrSiblings p.2))
  (listMapM (fun p => do
      let h ← rowLookup p.2 "history"
      historyDf h) ts).map
    (fun dfs => (dfs, ts))

/-! ### Team statistics `_transform_statistics_json` (C10)

```python
for _, item_external in statistics_json.items():
    for _, item in item_external.items():
        item['shots_against'] = item['against']['shots']
        item['goals_against'] = item['against']['goals']
        item['xG_against'] = item['against']['xG']
        item.pop('against')
    df_list.append(pd.DataFrame(item_external).transpose())
```
-/

/-- One stats `item`: unnest three fields of the `against` dict in place,
then `item.pop('against')`. -/
def transformStatItem (item : Row) : Option Row := do
  let ag ← rowLookup item "against"
  let agf ← (match ag with
    | Json.obj fields => some fields
    | _ => none : Option Row)
  let s ← rowLookup agf "shots"
  let g ← rowLookup agf "goals"
  let x ← rowLookup agf "xG"
  let item2 := dictSet item "shots_against" s
  let item3 := dictSet item2 "goals_against" g
  let item4 := dictSet item3 "xG_against" x
  pure (rowPop item4 "against")

/-- `pd.DataFrame(dict_of_dicts).transpose()`: pre-transpose columns are the
outer keys and the index is the union of inner keys in first-appearance
order; transposing gives one row per outer key, one column per inner key. -/
def dfOfDictTranspose (d : List (String × Row)) : DataFrame :=
  ⟨d.length,
   (recordKeys (d.map Prod.snd)).map
     (fun c => (c, d.map (fun p => (rowLookup p.2 c).getD Json.null)))⟩

/-- `_transform_statistics_json` together with the argument's post-call
state: every per-team entry of every group is transformed in place, and a
transposed frame per group is returned. -/
def transformStatisticsJson (stats : List (String × List (String × Row))) :
    Option (List DataFrame × List (String × List (String × Row))) := do
  let stats2 ← listMapM
    (fun p =>
      (listMapM (fun q => (transformStatItem q.2).map (fun r => (q.1, r))) p.2).map
        (fun inner => (p.1, inner)))
    stats
  pure (stats2.map (fun p => dfOfDictTranspose p.2), stats2)

/-- A one-team league record whose team-level fields `id`, `title` are
strings and whose history has one entry. -/
def exArsenalItem : Row :=
  [("id", Json.str "83"),
   ("title", Json.str "Arsenal"),
   ("history", Json.arr [Json.obj [("xG", Json.num 2)]])]

def exTeamsIn : List (String × Row) := [("Arsenal", exArsenalItem)]

/-- `exTeamsIn` after `_get_teams_stats_league_df`: the history entry has
gained the string fields `id` and `title`. -/
def exTeamsAfter : List (String × Row) :=
  [("Arsenal",
    [("id", Json.str "83"),
     ("title", Json.str "Arsenal"),
     ("history", Json.arr [Json.obj
       [("xG", Json.num 2), ("id", Json.str "83"),
        ("title", Json.str "Arsenal")]])])]

/-- A one-group statistics record with an `against` sub-dict. -/
def exStatsIn : List (String × List (String × Row)) :=
  [("situation",
    [("OpenPlay",
      [("shots", Json.num 10),
       ("against", Json.obj [("shots", Json.num 4), ("goals", Json.num 1),
         ("xG", Json.num 2)])])])]

/-- `exStatsIn` after `_transform_statistics_json`: the entry has gained
`shots_against`, `goals_against`, `xG_against` and lost `against`. -/
def exStatsAfter : List (String × List (String × Row)) :=
  [("situation",
    [("OpenPlay",
      [("shots", Json.num 10),
       ("shots_against", Json.num 4),
       ("goals_against", Json.num 1),
       ("xG_against", Json.num 2)])])]

/-- The keys of the first history entry of the first team — a projection
separating pre- and post-call states. -/
def firstHistoryEntryKeys (ts : List (String × Row)) : List String :=
  match ts with
  | [] => []
  | p :: _ =>
    match (rowLookup p.2 "history" : Option Json) with
    | some (Json.arr (Json.obj d :: _)) => rowKeys d
    | _ => []

/-- The keys of the first item of the first group of a statistics record. -/
def firstStatItemKeys (st : List (String × List (String × Row))) : List String :=
  match st with
  | [] => []
  | p :: _ =>
    match p.2 with
    | [] => []
    | q :: _ => rowKeys q.2

/-- C10 (confirmed).  Both transformers mutate the decoded record passed to
them in place.  After `_get_teams_stats_league_df` the caller's record has
the string team fields copied into each history entry; after
`_transform_statistics_json` each per-team entry has lost `against` and
gained `shots_against` / `goals_against` / `xG_against`. -/
theorem mutators_mutate_in_place :
    (getTeamsStatsLeague exTeamsIn).map Prod.snd = some exTeamsAfter ∧
    firstHistoryEntryKeys exTeamsAfter = ["xG", "id", "title"] ∧
    firstHistoryEntryKeys exTeamsIn = ["xG"] ∧
    (transformStatisticsJson exStatsIn).map Prod.snd = some exStatsAfter ∧
    firstStatItemKeys exStatsAfter =
      ["shots", "shots_against", "goals_against", "xG_against"] ∧
    firstStatItemKeys exStatsIn = ["shots", "against"] :=
  ⟨rfl, rfl, rfl, rfl, rfl, rfl⟩

theorem copyField_fst (base : Row) (kv : String × Json) :
    (copyField base kv).1 = kv.1 := by
  obtain ⟨k0, v⟩ := kv
  cases v <;> rfl

theorem rowLookup_map_copyField (base item2 : Row) (k : String) (es : List Json)
    (h : rowLookup item2 k = some (Json.arr es)) :
    rowLookup (item2.map (copyField base)) k =
      some (Json.arr (es.map (copyIntoEntry base))) := by
  induction item2 with
  | nil => exact absurd h (by simp [rowLookup])
  | cons kv rest ih =>
    obtain ⟨k0, v⟩ := kv
    by_cases hk : k0 = k
    · rw [rowLookup, if_pos hk] at h
      injection h with h
      subst h
      simp only [List.map_cons, copyField]
      rw [rowLookup, if_pos hk]
    · rw [rowLookup, if_neg hk] at h
      simp only [List.map_cons]
      rw [rowLookup, copyField_fst base (k0, v), if_neg hk]
      exact ih h

theorem rowLookup_addStrFields_notin (item : Row) (d : Row) (k : String)
    (hk : k ∉ rowKeys item) :
    rowLookup (addStrFields item d) k = rowLookup d k := by
  induction item generalizing d with
  | nil => rfl
  | cons kv rest ih =>
    have hk1 : kv.1 ≠ k := fun hh => hk (by simp [rowKeys, hh])
    have hkr : k ∉ rowKeys rest := fun hh => hk (List.mem_cons_of_mem _ hh)
    show rowLookup (addStrFields rest _) k = rowLookup d k
    rw [ih _ hkr]
    obtain ⟨k0, v⟩ := kv
    cases v with
    | str s => exact rowLookup_dictSet_ne d k0 k (Json.str s) (fun hh => hk1 hh.symm)
    | num n => rfl
    | bool b => rfl
    | null => rfl
    | arr es => rfl
    | obj fs => rfl

theorem rowLookup_addStrFields (item : Row) (d : Row) (k : String) (s : String)
    (hks : (k, Json.str s) ∈ item) (hnd : (rowKeys item).Nodup) :
    rowLookup (addStrFields item d) k = some (Json.str s) := by
  induction item generalizing d with
  | nil => cases hks
  | cons kv rest ih =>
    have hnd2 : (rowKeys rest).Nodup := hnd.of_cons
    rcases List.mem_cons.mp hks with h | h
    · have hknotin : k ∉ rowKeys rest := by
        have := hnd
        rw [show rowKeys (kv :: rest) = kv.1 :: rowKeys rest from rfl,
          List.nodup_cons] at this
        rw [← h] at this
        exact this.1
      show rowLookup (addStrFields rest _) k = some (Json.str s)
      rw [rowLookup_addStrFields_notin rest _ k hknotin, ← h]
      exact rowLookup_dictSet_self d k (Json.str s)
    · show rowLookup (addStrFields rest _) k = some (Json.str s)
      exact ih _ h hnd2

/-- C5 (amended).  Before each team's `history` is extracted as its table,
every *string-valued* sibling field of `history` is copied into each history
entry (the code's `isinstance(item2_2, str)` guard admits only strings, not
scalars of other types — see the counterexample): in the restructurer's
post-call state each team is replaced by its copied form, the history
entries are each extended with the string siblings, and every string sibling
`(k, s)` of the team dict is found under `k` in each transformed entry. -/
theorem getTeamsStatsLeague_copies_string_siblings
    (teams : List (String × Row)) (res : List DataFrame × List (String × Row))
    (hres : getTeamsStatsLeague teams = some res)
    (name : String) (item : Row) (hmem : (name, item) ∈ teams)
    (hnd : (rowKeys item).Nodup)
    (es : List Json) (hh : rowLookup item "history" = some (Json.arr es))
    (d : Row) (hd : Json.obj d ∈ es)
    (k s : String) (hks : (k, Json.str s) ∈ item) :
    (name, copyStrSiblings item) ∈ res.2 ∧
    rowLookup (copyStrSiblings item) "history" =
      some (Json.arr (es.map (copyIntoEntry item))) ∧
    Json.obj (addStrFields item d) ∈ es.map (copyIntoEntry item) ∧
    rowLookup (addStrFields item d) k = some (Json.str s) := by
  refine ⟨?_, rowLookup_map_copyField item item "history" es hh,
    List.mem_map.mpr ⟨Json.obj d, hd, rfl⟩,
    rowLookup_addStrFields item d k s hks hnd⟩
  rw [getTeamsStatsLeague] at hres
  cases hm : listMapM (fun p => do
      let h ← rowLookup p.2 "history"
      historyDf h) (teams.map fun p => (p.1, copyStrSiblings p.2)) with
  | none => rw [hm] at hres; exact absurd hres (by simp)
  | some dfs =>
    rw [hm] at hres
    simp only [Option.map_some', Option.some.injEq] at hres
    rw [← hres]
    exact List.mem_map.mpr ⟨(name, item), hmem, rfl⟩

/-- The concrete restructurer output for the one-team record. -/
def exTeamsRes : List DataFrame × List (String × Row) :=
  (getTeamsStatsLeague exTeamsIn).get (by rfl)

/-- Witness for C5's amended theorem: the string sibling `title` (and `id`)
is copied into the single history entry of the one-team record. -/
theorem getTeamsStatsLeague_copies_witness :
    ("Arsenal", copyStrSiblings exArsenalItem) ∈ exTeamsRes.2 ∧
    rowLookup (copyStrSiblings exArsenalItem) "history" =
      some (Json.arr ([Json.obj [("xG", Json.num 2)]].map
        (copyIntoEntry exArsenalItem))) ∧
    Json.obj (addStrFields exArsenalItem [("xG", Json.num 2)]) ∈
      [Json.obj [("xG", Json.num 2)]].map (copyIntoEntry exArsenalItem) ∧
    rowLookup (addStrFields exArsenalItem [("xG", Json.num 2)]) "title" =
      some (Json.str "Arsenal") :=
  getTeamsStatsLeague_copies_string_siblings exTeamsIn exTeamsRes
    (Option.some_get _).symm "Arsenal" exArsenalItem
    (List.mem_singleton.mpr rfl) (by decide)
    [Json.obj [("xG", Json.num 2)]] rfl
    [("xG", Json.num 2)] (List.mem_singleton.mpr rfl)
    "title" "Arsenal" (List.mem_cons_of_mem _ (List.mem_cons_self _ _))

/-- A team whose scalar siblings of `history` include a *non-string* scalar
(`"id"`, a number) next to a string (`"title"`). -/
def exTeamNumItem : Row :=
  [("id", Json.num 99),
   ("title", Json.str "X"),
   ("history", Json.arr [Json.obj [("pts", Json.num 3)]])]

def exTeamNumIn : List (String × Row) := [("NumTeam", exTeamNumItem)]

/-- C5 (counterexample).  The claim says *every scalar* sibling field of
`history` — "of any scalar type, not only strings" — is copied into each
history entry.  For a team whose `id` is the number 99, the post-call
history entry's keys are `["pts", "title"]`: the string `title` was copied
but the numeric scalar `id` was not (`isinstance(item2_2, str)` rejects it),
so no `id` column reaches the team's table. -/
theorem getTeamsStatsLeague_scalar_counterexample :
    rowLookup exTeamNumItem "id" = some (Json.num 99) ∧
    (getTeamsStatsLeague exTeamNumIn).map
      (fun p => firstHistoryEntryKeys p.2) = some ["pts", "title"] ∧
    (["pts", "title"] : List String).contains "id" = false :=
  ⟨rfl, rfl, by decide⟩

/-! ### Positional stat flattener `_get_player_positions_df` (C7)

```python
new_data = {}
for position, position_dict in json_data.items():
    if position not in new_data:
        new_data[position] = {}
    for stat, stats in position_dict.items():
        for math, stat_value in stats.items():
            new_data[f'{position}'][f'{stat}_{math}'] = stat_value

return pd.DataFrame(new_data).transpose()
```
-/

/-- Update of a dict's entry at `k` in place
(`new_data[position][...] = v` rebinds inside the row stored at `position`,
which the loop has just ensured exists; an absent key is a no-op here,
unreachable from the loop). -/
def dictUpdate {β : Type} (r : List (String × β)) (k : String) (f : β → β) :
    List (String × β) :=
  match r with
  | [] => []
  | kv :: rest =>
    if kv.1 = k then (kv.1, f kv.2) :: rest else kv :: dictUpdate rest k f

/-- The innermost loop over one stat's aggregations for position `q`. -/
def posStatStep (q : String) (nd : List (String × Row))
    (st : String × List (String × Json)) : List (String × Row) :=
  st.2.foldl
    (fun nd2 m =>
      dictUpdate nd2 q (fun row => dictSet row (st.1 ++ "_" ++ m.1) m.2))
    nd

/-- Processing one position of the outer loop. -/
def posStep (nd : List (String × Row))
    (p : String × List (String × List (String × Json))) :
    List (String × Row) :=
  p.2.foldl (posStatStep p.1)
    (if (rowKeys nd).contains p.1 then nd else nd ++ [(p.1, [])])

/-- The `new_data` dict built by `_get_player_positions_df`. -/
def playerPositionsRows
    (j : List (String × List (String × List (String × Json)))) :
    List (String × Row) :=
  j.foldl posStep []

/-- `_get_player_positions_df`: build `new_data`, then
`pd.DataFrame(new_data).transpose()`. -/
def getPlayerPositionsDf
    (j : List (String × List (String × List (String × Json)))) : DataFrame :=
  dfOfDictTranspose (playerPositionsRows j)

/-- One position's flat row, built independently of the `new_data` dict. -/
def buildStatStep (row : Row) (st : String × List (String × Json)) : Row :=
  st.2.foldl (fun r m => dictSet r (st.1 ++ "_" ++ m.1) m.2) row

def buildPosRow (pdict : List (String × List (String × Json))) : Row :=
  pdict.foldl buildStatStep []

/-- All synthesized `<stat>_<agg>` column names in traversal order, with
repetitions. -/
def synthNames (j : List (String × List (String × List (String × Json)))) :
    List String :=
  j.flatMap (fun p => p.2.flatMap (fun st => st.2.map (fun m => st.1 ++ "_" ++ m.1)))

/-- First-appearance deduplication. -/
def firstDedup (ks : List String) : List String := ks.foldl insertAbsent []

/-- The distinct `(stat, aggregation)` pairs observed across all positions —
the quantity the claim equates with the column count. -/
def statAggPairs (j : List (String × List (String × List (String × Json)))) :
    List (String × String) :=
  j.foldl (fun acc p =>
    p.2.foldl (fun acc2 st =>
      st.2.foldl (fun acc3 m =>
        if acc3.contains (st.1, m.1) then acc3 else acc3 ++ [(st.1, m.1)])
        acc2) acc) []

def exPosCollide : List (String × List (String × List (String × Json))) :=
  [("FW", [("a_b", [("c", Json.num 1)]), ("a", [("b_c", Json.num 2)])])]

/-- C7 (counterexample).  The claim equates the column count with the number
of distinct `(stat, aggregation)` pairs.  For the position `FW` with the two
distinct pairs `(a_b, c)` and `(a, b_c)`, both synthesize the same column
name `a_b_c`, so the code produces a single column (the second write wins):
1 column against the claim's 2. -/
theorem playerPositions_collision_counterexample :
    (getPlayerPositionsDf exPosCollide).nrows = 1 ∧
    colNames (getPlayerPositionsDf exPosCollide) = ["a_b_c"] ∧
    statAggPairs exPosCollide = [("a_b", "c"), ("a", "b_c")] ∧
    (statAggPairs exPosCollide).length = 2 :=
  ⟨rfl, rfl, rfl, rfl⟩

theorem dictUpdate_append (xs : List (String × Row)) (q : String) (row : Row)
    (f : Row → Row) (hq : q ∉ rowKeys xs) :
    dictUpdate (xs ++ [(q, row)]) q f = xs ++ [(q, f row)] := by
  induction xs with
  | nil => simp [dictUpdate]
  | cons kv rest ih =>
    have h1 : kv.1 ≠ q := fun hh => hq (by simp [rowKeys, hh])
    simp only [List.cons_append, dictUpdate, if_neg h1]
    show kv :: dictUpdate (rest ++ [(q, row)]) q f = kv :: (rest ++ [(q, f row)])
    rw [ih (fun hh => hq (List.mem_cons_of_mem _ hh))]

theorem foldl_dictUpdate_append {γ : Type} (ms : List γ)
    (xs : List (String × Row)) (q : String) (row : Row) (g : Row → γ → Row)
    (hq : q ∉ rowKeys xs) :
    ms.foldl (fun nd m => dictUpdate nd q (fun r => g r m)) (xs ++ [(q, row)]) =
      xs ++ [(q, ms.foldl g row)] := by
  induction ms generalizing row with
  | nil => rfl
  | cons m rest ih =>
    rw [List.foldl_cons, dictUpdate_append xs q row _ hq, List.foldl_cons]
    exact ih _

theorem posStatStep_append (q : String) (xs : List (String × Row)) (row : Row)
    (st : String × List (String × Json)) (hq : q ∉ rowKeys xs) :
    posStatStep q (xs ++ [(q, row)]) st = xs ++ [(q, buildStatStep row st)] :=
  foldl_dictUpdate_append st.2 xs q row
    (fun r m => dictSet r (st.1 ++ "_" ++ m.1) m.2) hq

theorem foldl_posStatStep_append (q : String)
    (pdict : List (String × List (String × Json))) (xs : List (String × Row))
    (row : Row) (hq : q ∉ rowKeys xs) :
    pdict.foldl (posStatStep q) (xs ++ [(q, row)]) =
      xs ++ [(q, pdict.foldl buildStatStep row)] := by
  induction pdict generalizing row with
  | nil => rfl
  | cons st rest ih =>
    rw [List.foldl_cons, posStatStep_append q xs row st hq, List.foldl_cons]
    exact ih _

theorem posStep_append (acc : List (String × Row))
    (p : String × List (String × List (String × Json)))
    (hp : p.1 ∉ rowKeys acc) :
    posStep acc p = acc ++ [(p.1, buildPosRow p.2)] := by
  rw [posStep]
  have hc : (rowKeys acc).contains p.1 = false := by
    cases hcc : (rowKeys acc).contains p.1
    · rfl
    · exact absurd (List.elem_iff.mp hcc) hp
  rw [hc]
  simp only [Bool.false_eq_true, if_false]
  exact foldl_posStatStep_append p.1 p.2 acc [] hp

theorem foldl_posStep_eq (j : List (String × List (String × List (String × Json))))
    (acc : List (String × Row)) (hdisj : ∀ p ∈ j, p.1 ∉ rowKeys acc)
    (hnd : (rowKeys j).Nodup) :
    j.foldl posStep acc = acc ++ j.map (fun p => (p.1, buildPosRow p.2)) := by
  induction j generalizing acc with
  | nil => simp
  | cons p rest ih =>
    rw [List.foldl_cons, posStep_append acc p (hdisj p (List.mem_cons_self p rest))]
    have hnd2 : (rowKeys rest).Nodup := hnd.of_cons
    have hp1 : p.1 ∉ rowKeys rest := by
      have h2 := hnd
      rw [show rowKeys (p :: rest) = p.1 :: rowKeys rest from rfl,
        List.nodup_cons] at h2
      exact h2.1
    rw [ih (acc ++ [(p.1, buildPosRow p.2)]) ?_ hnd2]
    · simp
    · intro q hq
      have hq1 : q.1 ∈ rowKeys rest := List.mem_map.mpr ⟨q, hq, rfl⟩
      have hqp : q.1 ≠ p.1 := fun hh => hp1 (hh ▸ hq1)
      intro hmem
      simp only [rowKeys, List.map_append, List.mem_append, List.map_cons,
        List.map_nil, List.mem_singleton] at hmem
      rcases hmem with hmem | hmem
      · exact hdisj q (List.mem_cons_of_mem p hq) hmem
      · exact hqp hmem

theorem playerPositionsRows_eq
    (j : List (String × List (String × List (String × Json))))
    (hnd : (rowKeys j).Nodup) :
    playerPositionsRows j = j.map (fun p => (p.1, buildPosRow p.2)) := by
  have h := foldl_posStep_eq j [] (by intro p hp; simp [rowKeys]) hnd
  simpa [playerPositionsRows] using h

theorem rowKeys_dictSet {β : Type} (r : List (String × β)) (k : String) (v : β) :
    rowKeys (dictSet r k v) = insertAbsent (rowKeys r) k := by
  induction r with
  | nil => rfl
  | cons kv rest ih =>
    by_cases h : kv.1 = k
    · subst h
      rw [dictSet, if_pos rfl]
      have hc : (rowKeys (kv :: rest)).contains kv.1 = true :=
        List.elem_iff.mpr (by simp [rowKeys])
      rw [insertAbsent, if_pos hc]
      rfl
    · rw [dictSet, if_neg h]
      show kv.1 :: rowKeys (dictSet rest k v) = insertAbsent (kv.1 :: rowKeys rest) k
      rw [ih, insertAbsent, insertAbsent, List.contains_cons]
      have hb : (k == kv.1) = false := beq_eq_false_iff_ne.mpr (fun hh => h hh.symm)
      rw [hb, Bool.false_or]
      by_cases hc : (rowKeys rest).contains k = true
      · rw [if_pos hc, if_pos hc]
      · rw [if_neg hc, if_neg hc]
        rfl

theorem rowKeys_foldl_dictSet {γ : Type} (ms : List γ) (row : Row)
    (nameOf : γ → String) (valOf : γ → Json) :
    rowKeys (ms.foldl (fun r m => dictSet r (nameOf m) (valOf m)) row) =
      (ms.map nameOf).foldl insertAbsent (rowKeys row) := by
  induction ms generalizing row with
  | nil => rfl
  | cons m rest ih =>
    rw [List.foldl_cons, ih, List.map_cons, List.foldl_cons, rowKeys_dictSet]

theorem rowKeys_buildStatStep (row : Row) (st : String × List (String × Json)) :
    rowKeys (buildStatStep row st) =
      (st.2.map (fun m => st.1 ++ "_" ++ m.1)).foldl insertAbsent (rowKeys row) :=
  rowKeys_foldl_dictSet st.2 row (fun m => st.1 ++ "_" ++ m.1) (fun m => m.2)

theorem rowKeys_foldl_buildStatStep
    (pdict : List (String × List (String × Json))) (row : Row) :
    rowKeys (pdict.foldl buildStatStep row) =
      (pdict.flatMap (fun st => st.2.map (fun m => st.1 ++ "_" ++ m.1))).foldl
        insertAbsent (rowKeys row) := by
  induction pdict generalizing row with
  | nil => rfl
  | cons st rest ih =>
    rw [List.foldl_cons, ih, List.flatMap_cons, List.foldl_append,
      rowKeys_buildStatStep]

theorem insertAbsent_of_mem (acc : List String) (k : String) (hk : k ∈ acc) :
    insertAbsent acc k = acc := by
  rw [insertAbsent, if_pos (List.elem_iff.mpr hk)]

theorem foldl_insertAbsent_merge (ks ds acc : List String) :
    (ks.foldl insertAbsent ds).foldl insertAbsent acc =
      (ds ++ ks).foldl insertAbsent acc := by
  induction ks generalizing ds with
  | nil => simp
  | cons k rest ih =>
    rw [List.foldl_cons, ih (insertAbsent ds k), insertAbsent]
    by_cases hc : ds.contains k = true
    · rw [if_pos hc]
      rw [List.foldl_append, List.foldl_append, List.foldl_cons]
      rw [insertAbsent_of_mem _ k
        (mem_foldl_insertAbsent ds acc k (List.elem_iff.mp hc))]
    · rw [if_neg hc]
      rw [show (ds ++ [k]) ++ rest = ds ++ k :: rest by simp]

theorem recordKeys_build
    (j : List (String × List (String × List (String × Json)))) :
    recordKeys (j.map (fun p => buildPosRow p.2)) = firstDedup (synthNames j) := by
  rw [recordKeys, firstDedup, synthNames]
  suffices h : ∀ acc, (j.map fun p => buildPosRow p.2).foldl
      (fun acc2 r => (rowKeys r).foldl insertAbsent acc2) acc =
      (j.flatMap fun p =>
        p.2.flatMap fun st => st.2.map fun m => st.1 ++ "_" ++ m.1).foldl
        insertAbsent acc by
    exact h []
  intro acc
  induction j generalizing acc with
  | nil => rfl
  | cons p rest ih =>
    rw [List.map_cons, List.foldl_cons, List.flatMap_cons, List.foldl_append, ih]
    congr 1
    rw [show buildPosRow p.2 = p.2.foldl buildStatStep [] from rfl,
      rowKeys_foldl_buildStatStep]
    have h2 := foldl_insertAbsent_merge
      (p.2.flatMap fun st => st.2.map fun m => st.1 ++ "_" ++ m.1) [] acc
    simpa using h2

theorem colNames_dfOfDictTranspose (d : List (String × Row)) :
    colNames (dfOfDictTranspose d) = recordKeys (d.map Prod.snd) := by
  simp only [colNames, dfOfDictTranspose, rowKeys, List.map_map]
  rw [show (Prod.fst ∘ fun c => (c, d.map (fun p => (rowLookup p.2 c).getD Json.null)))
      = id from rfl, List.map_id]

/-- C7 (amended).  For every three-level position object (with distinct
position keys, as a decoded JSON object has), the flattener returns one row
per position, and its column list is exactly the first-appearance
deduplication of the synthesized names `<stat>_<agg>` observed across all
positions.  The column count therefore equals the number of distinct
*synthesized names* — not the number of distinct `(stat, aggregation)`
pairs, since distinct pairs can collide on the same name (see the
counterexample). -/
theorem getPlayerPositionsDf_spec
    (j : List (String × List (String × List (String × Json))))
    (hnd : (rowKeys j).Nodup) :
    (getPlayerPositionsDf j).nrows = j.length ∧
    colNames (getPlayerPositionsDf j) = firstDedup (synthNames j) := by
  constructor
  · rw [getPlayerPositionsDf,
      show (dfOfDictTranspose (playerPositionsRows j)).nrows =
        (playerPositionsRows j).length from rfl,
      playerPositionsRows_eq j hnd, List.length_map]
  · rw [getPlayerPositionsDf, colNames_dfOfDictTranspose,
      playerPositionsRows_eq j hnd]
    have hm : (j.map fun p => (p.1, buildPosRow p.2)).map Prod.snd
        = j.map fun p => buildPosRow p.2 := by
      rw [List.map_map]
      rfl
    rw [hm, recordKeys_build]

/-- A two-position object with two distinct aggregation columns. -/
def exPosJ : List (String × List (String × List (String × Json))) :=
  [("FW", [("goals", [("per90", Json.num 1), ("total", Json.num 9)])]),
   ("MF", [("goals", [("per90", Json.num 0)])])]

/-- Witness for C7's amended theorem: two positions give two rows and the
columns `goals_per90`, `goals_total`. -/
theorem getPlayerPositionsDf_spec_witness :
    (getPlayerPositionsDf exPosJ).nrows = exPosJ.length ∧
    colNames (getPlayerPositionsDf exPosJ) = firstDedup (synthNames exPosJ) :=
  getPlayerPositionsDf_spec exPosJ (by decide)
